import Mathlib

/-!
Verification of `scripts/pin_mod_versions.py` (dependency version resolution
and pinning engine).

The Python source is shallowly embedded below:

* the Declarator Codec (`parse_dep` / `build_dep`, source lines 38-59),
* the dotted-version parsing and comparison helpers
  (`fetch_latest_version.parse_ver` line 75-77, `parse_version` line 110-114,
  `bump_patch` line 117-121),
* the pure candidate-selection part of `fetch_latest_version` (lines 79-107),
* the per-dependency policy and the whole-manifest pass `process_file`
  (lines 137-220), with network I/O abstracted as an oracle
  `fetch : String → Option String` (`None` models both a failed portal request
  and "no releases", exactly the two cases the source maps to `None`).

`parse_dep` uses the regular expression
`^\s*([!?])?\s*([A-Za-z0-9_-]+)(?:\s*(>=|<=|==|=|~>)\s*([0-9][0-9.]*))?\s*$`.
It is embedded as a deterministic parser; determinism is justified where the
parser is defined.
-/

namespace PinMod

/-- Python truthiness of an optional string: `None` and `""` are falsy. -/
def pyTruthy : Option String → Bool
  | none => false
  | some s => s ≠ ""

/-! ### Character classes of the dependency regex -/

/-- `[A-Za-z0-9_-]` (the name class of `DEP_RE`). -/
def isNameChar (c : Char) : Bool := c.isAlphanum || c = '_' || c = '-'

/-- `[!?]` (the flag class of `DEP_RE`). -/
def isFlagChar (c : Char) : Bool := c = '!' || c = '?'

/-- `[0-9.]` (the version-tail class of `DEP_RE`). -/
def isVerChar (c : Char) : Bool := c.isDigit || c = '.'

/-- `\s` of the regex (ASCII whitespace as used by the manifests). -/
def isSpc (c : Char) : Bool :=
  c = ' ' || c = '\t' || c = '\n' || c = '\r' || c = '\x0b' || c = '\x0c'

/-- The comparator alternation `>=|<=|==|=|~>`, in the source's order. -/
def OPS : List String := [">=", "<=", "==", "=", "~>"]

/-- Literal list prefix test (first argument is a prefix of the second). -/
def listPre : List Char → List Char → Bool
  | [], _ => true
  | _ :: _, [] => false
  | a :: as, b :: bs => a = b && listPre as bs

/-- First comparator of `OPS` that literally starts `cs`, with the remainder;
the regex alternation tries the alternatives in exactly this order. -/
def matchOp (cs : List Char) : Option (String × List Char) :=
  match (OPS.filter fun o => listPre o.data cs).head? with
  | none => none
  | some o => some (o, cs.drop o.data.length)

/-- The parsed fields of one dependency string: `(flag, name, op, ver)`. -/
abbrev Dep := String × String × Option String × Option String

/-- Matching of `DEP_RE` after the leading `\s*`, the optional flag and the
name group have been consumed: `nameCs` is the maximal `[A-Za-z0-9_-]` run and
`rest` what follows it.

Determinism notes (why no backtracking is needed to embed the regex):
* `([A-Za-z0-9_-]+)` may take its maximal run: giving back a character would
  leave a name character at the front of the remainder, and no name character
  can start `\s*(>=|<=|==|=|~>)` or `\s*$`.
* if an alternative of the comparator alternation literally matches, earlier
  failing alternatives cannot match, and when the matched one later fails the
  only overlap (`==` vs `=`) leaves `=` at the front, which is neither
  whitespace nor a digit, so the shorter alternative fails as well.
* `[0-9][0-9.]*` may take its maximal run: giving back a character would leave
  a `[0-9.]` character facing `\s*$`.
* when the whole optional group fails, the regex falls back to matching
  `\s*$` directly after the name. -/
def parseAfterName (flag : String) (nameCs rest : List Char) : Option Dep :=
  if nameCs = [] then none
  else
    match matchOp (rest.dropWhile isSpc) with
    | none => if rest.all isSpc then some (flag, String.mk nameCs, none, none) else none
    | some (op, afterOp) =>
      match ((afterOp.dropWhile isSpc).takeWhile isVerChar : List Char) with
      | [] => if rest.all isSpc then some (flag, String.mk nameCs, none, none) else none
      | d :: ds =>
        if d.isDigit && ((afterOp.dropWhile isSpc).dropWhile isVerChar).all isSpc then
          some (flag, String.mk nameCs, some op, some (String.mk (d :: ds)))
        else if rest.all isSpc then some (flag, String.mk nameCs, none, none) else none

/-- `DEP_RE` matching after the leading `\s*` and the optional flag. -/
def parseTail (flag : String) (cs0 : List Char) : Option Dep :=
  parseAfterName flag ((cs0.dropWhile isSpc).takeWhile isNameChar)
    ((cs0.dropWhile isSpc).dropWhile isNameChar)

/-- `parse_dep` (source lines 41-52): match `DEP_RE` and return
`(flag, name, op, ver)`, where a missing flag is `""`.  `none` models the
`ValueError` raised on a non-match. -/
def parse_dep (dep : String) : Option Dep :=
  match dep.data.dropWhile isSpc with
  | c :: rest =>
    if isFlagChar c then parseTail (String.mk [c]) rest else parseTail "" (c :: rest)
  | [] => none

/-- `build_dep` (source lines 55-59).  The guard `if op and ver:` uses Python
truthiness, so an empty comparator or version also yields the bare form. -/
def build_dep (flag name : String) (op ver : Option String) : String :=
  let pre := if flag = "" then "" else flag ++ " "
  match op, ver with
  | some o, some v =>
    if o = "" || v = "" then pre ++ name else pre ++ name ++ " " ++ o ++ " " ++ v
  | _, _ => pre ++ name

example : parse_dep "foo" = some ("", "foo", none, none) := by decide
example : parse_dep "  ? foo-bar_2 >= 1.2.3  " =
    some ("?", "foo-bar_2", some ">=", some "1.2.3") := by decide
example : parse_dep "!foo" = some ("!", "foo", none, none) := by decide
example : parse_dep "foo = 1.0" = some ("", "foo", some "=", some "1.0") := by decide
example : parse_dep "foo ~> 1.0" = some ("", "foo", some "~>", some "1.0") := by decide
example : parse_dep "foo >= x" = none := by decide
example : parse_dep "" = none := by decide
example : parse_dep "foo bar" = none := by decide
example : build_dep "!" "foo" none none = "! foo" := by decide
example : build_dep "" "foo" (some ">=") (some "1.2") = "foo >= 1.2" := by decide

/-! ### Character-class facts -/

lemma spc_cases {c : Char} (h : isSpc c = true) :
    c = ' ' ∨ c = '\t' ∨ c = '\n' ∨ c = '\r' ∨ c = '\x0b' ∨ c = '\x0c' := by
  have h' := h
  simp only [isSpc, Bool.or_eq_true, decide_eq_true_eq] at h'
  tauto

lemma nameChar_not_spc {c : Char} (h : isNameChar c = true) : isSpc c = false := by
  cases hs : isSpc c with
  | false => rfl
  | true => rcases spc_cases hs with rfl | rfl | rfl | rfl | rfl | rfl <;>
      exact absurd h (by decide)

lemma digit_not_spc {c : Char} (h : c.isDigit = true) : isSpc c = false := by
  cases hs : isSpc c with
  | false => rfl
  | true => rcases spc_cases hs with rfl | rfl | rfl | rfl | rfl | rfl <;>
      exact absurd h (by decide)

lemma flag_cases {c : Char} (h : isFlagChar c = true) : c = '!' ∨ c = '?' := by
  simpa [isFlagChar, Bool.or_eq_true, decide_eq_true_eq] using h

lemma nameChar_not_flag {c : Char} (h : isNameChar c = true) : isFlagChar c = false := by
  cases hs : isFlagChar c with
  | false => rfl
  | true => rcases flag_cases hs with rfl | rfl <;> exact absurd h (by decide)

lemma digit_verChar {c : Char} (h : c.isDigit = true) : isVerChar c = true := by
  simp [isVerChar, h]

lemma ops_cases {o : String} (ho : o ∈ OPS) :
    o = ">=" ∨ o = "<=" ∨ o = "==" ∨ o = "=" ∨ o = "~>" := by
  simpa [OPS] using ho

/-! ### takeWhile / dropWhile over a run followed by a stopper -/

lemma dropWhile_of_head (p : Char → Bool) (l : List Char)
    (h : ∀ d, l.head? = some d → p d = false) : l.dropWhile p = l := by
  cases l with
  | nil => rfl
  | cons c cs => simp [List.dropWhile, h c rfl]

lemma takeWhile_run (p : Char → Bool) :
    ∀ (cs rest : List Char), (∀ c ∈ cs, p c = true) →
      (∀ d, rest.head? = some d → p d = false) →
      (cs ++ rest).takeWhile p = cs ∧ (cs ++ rest).dropWhile p = rest := by
  intro cs
  induction cs with
  | nil =>
    intro rest _ h2
    refine ⟨?_, dropWhile_of_head p rest h2⟩
    cases rest with
    | nil => rfl
    | cons d ds => simp [List.takeWhile, h2 d rfl]
  | cons c cs ih =>
    intro rest h h2
    have hc : p c = true := h c (by simp)
    have := ih rest (fun x hx => h x (by simp [hx])) h2
    simp [List.takeWhile, List.dropWhile, hc, this.1, this.2]

/-! ### `parse_dep ∘ build_dep` -/

/-- Well-formedness of the serializable fields, as `build_dep`'s callers
produce them: flag `""`/`"!"`/`"?"`, a nonempty name over `[A-Za-z0-9_-]`,
and either no constraint or a comparator from the regex's alternation with a
version of shape `[0-9][0-9.]*`. -/
def WfDep (flag name : String) (op ver : Option String) : Prop :=
  (flag = "" ∨ flag = "!" ∨ flag = "?") ∧
  (name.data ≠ [] ∧ ∀ c ∈ name.data, isNameChar c = true) ∧
  ((op = none ∧ ver = none) ∨
    ∃ o v, op = some o ∧ ver = some v ∧ o ∈ OPS ∧
      (∃ d ds, v.data = d :: ds ∧ d.isDigit = true) ∧
      (∀ c ∈ v.data, isVerChar c = true))

lemma mk_data (s : String) : String.mk s.data = s := rfl

lemma parseTail_bare (flag : String) (name : String) (cs0 : List Char)
    (hn1 : name.data ≠ []) (hn2 : ∀ c ∈ name.data, isNameChar c = true)
    (h0 : cs0.dropWhile isSpc = name.data) :
    parseTail flag cs0 = some (flag, name, none, none) := by
  have hrun := takeWhile_run isNameChar name.data [] hn2 (by intro d hd; simp at hd)
  rw [List.append_nil] at hrun
  unfold parseTail
  rw [h0, hrun.1, hrun.2]
  unfold parseAfterName
  rw [if_neg hn1]
  rfl

lemma head_eq_of_headq {x c0 : Char} {cs0 : List Char} {l : List Char}
    (hl : l = c0 :: cs0) (hx : l.head? = some x) : x = c0 := by
  rw [hl] at hx
  simp at hx
  exact hx.symm

lemma parseTail_constr (flag : String) (name o v : String) (cs0 : List Char)
    (hn1 : name.data ≠ []) (hn2 : ∀ c ∈ name.data, isNameChar c = true)
    (ho : o ∈ OPS)
    (hv1 : ∃ d ds, v.data = d :: ds ∧ d.isDigit = true)
    (hv2 : ∀ c ∈ v.data, isVerChar c = true)
    (h0 : cs0.dropWhile isSpc = name.data ++ (' ' :: (o.data ++ (' ' :: v.data)))) :
    parseTail flag cs0 = some (flag, name, some o, some v) := by
  obtain ⟨d, ds, hvd, hdd⟩ := hv1
  have hrun := takeWhile_run isNameChar name.data (' ' :: (o.data ++ (' ' :: v.data))) hn2
    (by intro x hx
        simp at hx
        exact hx ▸ (by decide : isNameChar ' ' = false))
  have hver := takeWhile_run isVerChar v.data [] hv2 (by intro x hx; simp at hx)
  rw [List.append_nil] at hver
  unfold parseTail
  rw [h0, hrun.1, hrun.2]
  unfold parseAfterName
  rw [if_neg hn1]
  have hop : matchOp ((' ' :: (o.data ++ (' ' :: v.data))).dropWhile isSpc) =
      some (o, ' ' :: v.data) := by
    rcases ops_cases ho with rfl | rfl | rfl | rfl | rfl <;> rfl
  rw [hop]
  have hvs : (' ' :: v.data).dropWhile isSpc = v.data := by
    show v.data.dropWhile isSpc = v.data
    exact dropWhile_of_head _ _
      (fun x hx => (head_eq_of_headq hvd hx) ▸ digit_not_spc hdd)
  simp only [hvs, hver.1, hver.2]
  rw [hvd]
  simp [hdd, mk_data, ← hvd]

lemma parse_dep_flagless (dep : String) (c : Char) (rest : List Char)
    (h : dep.data.dropWhile isSpc = c :: rest) (hcf : isFlagChar c = false) :
    parse_dep dep = parseTail "" (c :: rest) := by
  unfold parse_dep
  rw [h]
  simp [hcf]

lemma parse_dep_flagged (dep : String) (f : Char) (rest : List Char)
    (h : dep.data.dropWhile isSpc = f :: rest) (hf : isFlagChar f = true) :
    parse_dep dep = parseTail (String.mk [f]) rest := by
  unfold parse_dep
  rw [h]
  simp [hf]

/-- For every well-formed field tuple, parsing the serialized form recovers
exactly the same four fields. -/
theorem parse_build (flag name : String) (op ver : Option String)
    (h : WfDep flag name op ver) :
    parse_dep (build_dep flag name op ver) = some (flag, name, op, ver) := by
  obtain ⟨hf, ⟨hn1, hn2⟩, hc⟩ := h
  obtain ⟨c0, cs0, hnd⟩ := List.exists_cons_of_ne_nil hn1
  have hc0 : isNameChar c0 = true := hn2 c0 (by rw [hnd]; simp)
  rcases hc with ⟨rfl, rfl⟩ | ⟨o, v, rfl, rfl, ho, hv1, hv2⟩
  · -- no constraint
    have hdw : name.data.dropWhile isSpc = name.data :=
      dropWhile_of_head _ _ (fun x hx => (head_eq_of_headq hnd hx) ▸ nameChar_not_spc hc0)
    rcases hf with rfl | rfl | rfl
    · have hstep : parse_dep (build_dep "" name none none) = parseTail "" (c0 :: cs0) := by
        refine parse_dep_flagless _ c0 cs0 ?_ (nameChar_not_flag hc0)
        show name.data.dropWhile isSpc = c0 :: cs0
        rw [hdw, hnd]
      rw [hstep, ← hnd]
      exact parseTail_bare "" name name.data hn1 hn2 hdw
    · have hbd : (build_dep "!" name none none).data = '!' :: ' ' :: name.data := rfl
      have hstep : parse_dep (build_dep "!" name none none) =
          parseTail "!" (' ' :: name.data) := by
        refine parse_dep_flagged _ '!' (' ' :: name.data) ?_ (by decide)
        rw [hbd]
        rfl
      rw [hstep]
      refine parseTail_bare "!" name (' ' :: name.data) hn1 hn2 ?_
      show name.data.dropWhile isSpc = name.data
      exact hdw
    · have hbd : (build_dep "?" name none none).data = '?' :: ' ' :: name.data := rfl
      have hstep : parse_dep (build_dep "?" name none none) =
          parseTail "?" (' ' :: name.data) := by
        refine parse_dep_flagged _ '?' (' ' :: name.data) ?_ (by decide)
        rw [hbd]
        rfl
      rw [hstep]
      refine parseTail_bare "?" name (' ' :: name.data) hn1 hn2 ?_
      show name.data.dropWhile isSpc = name.data
      exact hdw
  · -- constraint present
    have hone : o ≠ "" := by rcases ops_cases ho with rfl | rfl | rfl | rfl | rfl <;> decide
    have hvne : v ≠ "" := by
      obtain ⟨d, ds, hvd, _⟩ := hv1
      intro hcon
      rw [hcon] at hvd
      exact List.cons_ne_nil d ds hvd.symm
    have hb : build_dep flag name (some o) (some v) =
        (if flag = "" then "" else flag ++ " ") ++ name ++ " " ++ o ++ " " ++ v := by
      unfold build_dep
      simp [hone, hvne]
    set tail := ' ' :: (o.data ++ (' ' :: v.data)) with htail
    have hdwc : (name.data ++ tail).dropWhile isSpc = name.data ++ tail := by
      apply dropWhile_of_head
      intro x hx
      have : (name.data ++ tail).head? = some c0 := by
        rw [hnd]
        simp
      rw [this] at hx
      have hxc : x = c0 := by simpa using hx.symm
      exact hxc ▸ nameChar_not_spc hc0
    rcases hf with rfl | rfl | rfl
    · have hbd : (build_dep "" name (some o) (some v)).data = name.data ++ tail := by
        rw [hb, htail]
        simp [String.data_append, show (" " : String).data = [' '] from rfl,
          show ("" : String).data = ([] : List Char) from rfl]
      have hcons : name.data ++ tail = c0 :: (cs0 ++ tail) := by
        rw [hnd]
        simp
      have hstep : parse_dep (build_dep "" name (some o) (some v)) =
          parseTail "" (c0 :: (cs0 ++ tail)) := by
        refine parse_dep_flagless _ c0 (cs0 ++ tail) ?_ (nameChar_not_flag hc0)
        rw [hbd, hdwc, hcons]
      rw [hstep, ← hcons]
      refine parseTail_constr "" name o v _ hn1 hn2 ho hv1 hv2 ?_
      rw [hdwc, htail]
    · have hbd : (build_dep "!" name (some o) (some v)).data =
          '!' :: ' ' :: (name.data ++ tail) := by
        rw [hb, htail]
        simp [String.data_append]
      have hstep : parse_dep (build_dep "!" name (some o) (some v)) =
          parseTail "!" (' ' :: (name.data ++ tail)) := by
        refine parse_dep_flagged _ '!' (' ' :: (name.data ++ tail)) ?_ (by decide)
        rw [hbd]
        rfl
      rw [hstep]
      refine parseTail_constr "!" name o v _ hn1 hn2 ho hv1 hv2 ?_
      show (name.data ++ tail).dropWhile isSpc = _
      rw [hdwc, htail]
    · have hbd : (build_dep "?" name (some o) (some v)).data =
          '?' :: ' ' :: (name.data ++ tail) := by
        rw [hb, htail]
        simp [String.data_append]
      have hstep : parse_dep (build_dep "?" name (some o) (some v)) =
          parseTail "?" (' ' :: (name.data ++ tail)) := by
        refine parse_dep_flagged _ '?' (' ' :: (name.data ++ tail)) ?_ (by decide)
        rw [hbd]
        rfl
      rw [hstep]
      refine parseTail_constr "?" name o v _ hn1 hn2 ho hv1 hv2 ?_
      show (name.data ++ tail).dropWhile isSpc = _
      rw [hdwc, htail]

/-! ### Claims C10 and C1 (Declarator Codec round-trips) -/

/-- C10: for every well-formed declarator value — flag in `{"", "!", "?"}`,
name matching the alphanumeric/hyphen/underscore grammar, and
operator/version either both present (operator in the fixed set, version of
shape `[0-9][0-9.]*`, which covers all dot-separated non-negative integers
starting with a digit) or both absent — parsing the serialized form recovers
exactly the same four fields:
`parse_dep (build_dep flag name op ver) = (flag, name, op, ver)`. -/
theorem claim_C10_parse_of_build (flag name : String) (op ver : Option String)
    (h : WfDep flag name op ver) :
    parse_dep (build_dep flag name op ver) = some (flag, name, op, ver) :=
  parse_build flag name op ver h

theorem claim_C10_witness :
    WfDep "?" "foo" (some ">=") (some "1.2.3") ∧
    parse_dep (build_dep "?" "foo" (some ">=") (some "1.2.3")) =
      some ("?", "foo", some ">=", some "1.2.3") := by
  have hw : WfDep "?" "foo" (some ">=") (some "1.2.3") := by
    refine ⟨Or.inr (Or.inr rfl), ⟨by decide, by decide⟩,
      Or.inr ⟨">=", "1.2.3", rfl, rfl, by decide, ⟨'1', ['.', '2', '.', '3'], rfl, by decide⟩,
        by decide⟩⟩
  exact ⟨hw, claim_C10_parse_of_build "?" "foo" (some ">=") (some "1.2.3") hw⟩

/-- C1 fails as stated: `"!foo"` is accepted by `parse_dep` (flag `!`, name
`foo`), but re-serializing inserts a space after the flag, so the round-trip
does not return the identical string. -/
theorem claim_C1_counterexample :
    parse_dep "!foo" = some ("!", "foo", none, none) ∧
    build_dep "!" "foo" none none ≠ "!foo" := by decide

/-- C1 (amended): the round-trip `build_dep ∘ parse_dep = id` holds exactly on
canonical strings — those in the image of the serializer on well-formed
fields.  Accepted inputs with a flag not followed by one space, or with extra
whitespace, re-serialize to the canonical form instead of the original. -/
theorem claim_C1_roundtrip_canonical (s : String) (flag name : String)
    (op ver : Option String) (hw : WfDep flag name op ver)
    (hs : s = build_dep flag name op ver) :
    ∃ t : Dep, parse_dep s = some t ∧ build_dep t.1 t.2.1 t.2.2.1 t.2.2.2 = s := by
  subst hs
  exact ⟨(flag, name, op, ver), parse_build flag name op ver hw, rfl⟩

theorem claim_C1_witness :
    WfDep "!" "foo" (some ">=") (some "1.2") ∧
    "! foo >= 1.2" = build_dep "!" "foo" (some ">=") (some "1.2") ∧
    ∃ t : Dep, parse_dep "! foo >= 1.2" = some t ∧
      build_dep t.1 t.2.1 t.2.2.1 t.2.2.2 = "! foo >= 1.2" := by
  have hw : WfDep "!" "foo" (some ">=") (some "1.2") := by
    refine ⟨Or.inr (Or.inl rfl), ⟨by decide, by decide⟩,
      Or.inr ⟨">=", "1.2", rfl, rfl, by decide, ⟨'1', ['.', '2'], rfl, by decide⟩, by decide⟩⟩
  exact ⟨hw, by decide,
    claim_C1_roundtrip_canonical "! foo >= 1.2" "!" "foo" (some ">=") (some "1.2") hw
      (by decide)⟩

/-! ### Dotted version strings

`fetch_latest_version.parse_ver`, `parse_version` and `bump_patch` all start
from Python's `v.split(".")` and `int(p)`; both are embedded here on the
character list of the string. -/

/-- Python `s.split(".")`: split at every `'.'`; `""` splits to `[""]`. -/
def splitDotsAux : List Char → List Char → List String
  | [], acc => [String.mk acc.reverse]
  | c :: cs, acc =>
    if c = '.' then String.mk acc.reverse :: splitDotsAux cs []
    else splitDotsAux cs (c :: acc)

def splitDots (s : String) : List String := splitDotsAux s.data []

/-- Python `int(p)` for a non-negative decimal component; `none` models the
`ValueError` raised on a non-numeric component. -/
def toNatD (s : String) : Option Nat :=
  if s.data ≠ [] ∧ s.data.all Char.isDigit then
    some (s.data.foldl (fun n c => 10 * n + (c.toNat - 48)) 0)
  else none

/-- The list comprehension `[int(p) for p in parts]`: first failure aborts. -/
def mapO (f : String → Option Nat) : List String → Option (List Nat)
  | [] => some []
  | s :: rest =>
    match f s, mapO f rest with
    | some n, some ns => some (n :: ns)
    | _, _ => none

/-- `parse_ver` inside `fetch_latest_version` (lines 75-77):
`tuple(int(p) for p in v.split("."))` — NO padding of short tuples. -/
def parse_ver (v : String) : Option (List Nat) := mapO toNatD (splitDots v)

/-- Pad with trailing zeros to length 3 and keep the first three components,
as `parse_version`'s `while len(parts) < 3: parts.append(0)` plus
`return parts[0], parts[1], parts[2]` does. -/
def pad3 (ps : List Nat) : Nat × Nat × Nat :=
  ((ps ++ List.replicate (3 - ps.length) 0).getD 0 0,
   (ps ++ List.replicate (3 - ps.length) 0).getD 1 0,
   (ps ++ List.replicate (3 - ps.length) 0).getD 2 0)

/-- `parse_version` (lines 110-114). -/
def parse_version (v : String) : Option (Nat × Nat × Nat) :=
  (mapO toNatD (splitDots v)).map pad3

/-- Python `<` on 3-tuples of ints (strict lexicographic). -/
def tripleLt (a b : Nat × Nat × Nat) : Bool :=
  decide (a.1 < b.1 ∨ (a.1 = b.1 ∧ (a.2.1 < b.2.1 ∨ (a.2.1 = b.2.1 ∧ a.2.2 < b.2.2))))

/-- Python `max(a, b)` on two tuples: `b` when `a < b`, else `a`. -/
def tripleMax (a b : Nat × Nat × Nat) : Nat × Nat × Nat := if tripleLt a b then b else a

/-- Python `<` on int tuples of arbitrary arity, as used on `parse_ver`
results: lexicographic, a strict prefix is smaller. -/
def tupLt : List Nat → List Nat → Bool
  | [], [] => false
  | [], _ :: _ => true
  | _ :: _, [] => false
  | a :: as, b :: bs => if a < b then true else if b < a then false else tupLt as bs

/-- Decimal rendering of a `Nat` (Python `str` of a non-negative int);
the first argument of the worker is fuel, always sufficient at `n + 1`. -/
def natToStrGo : Nat → Nat → List Char
  | 0, _ => []
  | fuel + 1, n =>
    if n < 10 then [Char.ofNat (48 + n)]
    else natToStrGo fuel (n / 10) ++ [Char.ofNat (48 + n % 10)]

def natToStr (n : Nat) : String := String.mk (natToStrGo (n + 1) n)

/-- The f-string `f"{a}.{b}.{c}"` on a triple of non-negative ints. -/
def versionStr (t : Nat × Nat × Nat) : String :=
  natToStr t.1 ++ "." ++ natToStr t.2.1 ++ "." ++ natToStr t.2.2

/-- `remote_tuple = parse_version(remote_ver) if remote_ver else (0, 0, 0)`
(line 119), with Python truthiness on `remote_ver`. -/
def remoteTupleOf : Option String → Option (Nat × Nat × Nat)
  | none => some (0, 0, 0)
  | some r => if r = "" then some (0, 0, 0) else parse_version r

def incPatch (t : Nat × Nat × Nat) : Nat × Nat × Nat := (t.1, t.2.1, t.2.2 + 1)

/-- `bump_patch` (lines 117-121); `none` models the `ValueError` of a
non-numeric version. -/
def bump_patch (localVer : String) (remoteVer : Option String) : Option String :=
  (parse_version localVer).bind fun lt =>
    (remoteTupleOf remoteVer).map fun rt => versionStr (incPatch (tripleMax lt rt))

example : splitDots "1.2.3" = ["1", "2", "3"] := by decide
example : splitDots "" = [""] := by decide
example : parse_ver "1.2" = some [1, 2] := by decide
example : parse_version "1.2" = some (1, 2, 0) := by decide
example : parse_version "1.2.3.9" = some (1, 2, 3) := by decide
example : parse_version "" = none := by decide
example : natToStr 0 = "0" := by decide
example : natToStr 2063 = "2063" := by decide
example : bump_patch "1.2.3" (some "1.2.5") = some "1.2.6" := by decide
example : bump_patch "1.2" none = some "1.2.1" := by decide
example : bump_patch "0.9.9" (some "2.0") = some "2.0.1" := by decide

/-! ### Claim C9 (version comparison arity) -/

/-- C9 fails as stated: the comparison used in candidate selection
(`parse_ver` plus tuple `<`) does not pad — `"1.2"` compares strictly below
`"1.2.0"` — whereas the padded comparison of the claim makes them equal
(`pad3` is exactly the claimed padding, and is what `parse_version` uses). -/
theorem claim_C9_counterexample :
    parse_ver "1.2" = some [1, 2] ∧ parse_ver "1.2.0" = some [1, 2, 0] ∧
    tupLt [1, 2] [1, 2, 0] = true ∧ pad3 [1, 2] = pad3 [1, 2, 0] := by decide

/-- C9 (amended): only the bump computation (`parse_version`) pads version
tuples with trailing zeros to arity 3 (truncating extra components); the
candidate selection (`parse_ver`) compares unpadded tuples, where a strict
prefix is smaller, so `"1.2"` and `"1.2.0"` compare equal in the bump
computation but strictly in candidate selection. -/
theorem claim_C9_comparison_arity :
    (∀ (s : String) (ps : List Nat),
        mapO toNatD (splitDots s) = some ps → parse_version s = some (pad3 ps)) ∧
    (∀ (s : String) (ps : List Nat),
        mapO toNatD (splitDots s) = some ps → parse_ver s = some ps) ∧
    tupLt [1, 2] [1, 2, 0] = true ∧ pad3 [1, 2] = pad3 [1, 2, 0] ∧
    parse_version "1.2" = parse_version "1.2.0" := by
  refine ⟨?_, ?_, by decide, by decide, by decide⟩
  · intro s ps h
    unfold parse_version
    rw [h]
    rfl
  · intro s ps h
    unfold parse_ver
    rw [h]

theorem claim_C9_witness :
    mapO toNatD (splitDots "1.2") = some [1, 2] ∧
    parse_version "1.2" = some (pad3 [1, 2]) ∧ parse_ver "1.2" = some [1, 2] := by
  refine ⟨by decide, ?_, ?_⟩
  · exact claim_C9_comparison_arity.1 "1.2" [1, 2] (by decide)
  · exact claim_C9_comparison_arity.2.1 "1.2" [1, 2] (by decide)

/-! ### Decimal print/parse round-trip (for the bump computation) -/

lemma digitChar_toNat {d : Nat} (h : d < 10) : (Char.ofNat (48 + d)).toNat = 48 + d := by
  interval_cases d <;> decide

lemma digitChar_isDigit {d : Nat} (h : d < 10) : (Char.ofNat (48 + d)).isDigit = true := by
  interval_cases d <;> decide

lemma digit_ne_dot {c : Char} (h : c.isDigit = true) : ¬ c = '.' := fun e => by
  rw [e] at h
  exact absurd h (by decide)

lemma natToStrGo_spec : ∀ (fuel n : Nat), n < fuel →
    natToStrGo fuel n ≠ [] ∧ (∀ c ∈ natToStrGo fuel n, c.isDigit = true) ∧
    ∀ a : Nat, (natToStrGo fuel n).foldl (fun m c => 10 * m + (c.toNat - 48)) a =
      a * 10 ^ (natToStrGo fuel n).length + n := by
  intro fuel
  induction fuel with
  | zero => intro n h; omega
  | succ fuel ih =>
    intro n h
    by_cases h10 : n < 10
    · refine ⟨by simp [natToStrGo, h10], ?_, ?_⟩
      · intro c hc
        simp [natToStrGo, h10] at hc
        rw [hc]
        exact digitChar_isDigit h10
      · intro a
        simp [natToStrGo, h10, List.foldl, digitChar_toNat h10]
        omega
    · have hdiv : n / 10 < fuel := by
        have : n / 10 < n := Nat.div_lt_self (by omega) (by omega)
        omega
      have hmod : n % 10 < 10 := Nat.mod_lt n (by omega)
      obtain ⟨ihne, ihd, ihf⟩ := ih (n / 10) hdiv
      have hgo : natToStrGo (fuel + 1) n =
          natToStrGo fuel (n / 10) ++ [Char.ofNat (48 + n % 10)] := by
        simp [natToStrGo, h10]
      refine ⟨by simp [hgo], ?_, ?_⟩
      · intro c hc
        rw [hgo] at hc
        rcases List.mem_append.mp hc with hc | hc
        · exact ihd c hc
        · rw [List.mem_singleton.mp hc]
          exact digitChar_isDigit hmod
      · intro a
        rw [hgo, List.foldl_append, ihf a]
        simp [List.foldl, digitChar_toNat hmod, List.length_append]
        rw [pow_succ, ← Nat.div_add_mod n 10]
        ring_nf
        omega

lemma toNatD_natToStr (n : Nat) : toNatD (natToStr n) = some n := by
  obtain ⟨hne, hd, hf⟩ := natToStrGo_spec (n + 1) n (by omega)
  unfold toNatD natToStr
  rw [if_pos]
  · have := hf 0
    simp at this
    simp [this]
  · exact ⟨hne, List.all_eq_true.mpr (fun c hc => hd c hc)⟩

lemma natToStr_nodot (n : Nat) : ∀ x ∈ (natToStr n).data, ¬ x = '.' := by
  intro x hx
  obtain ⟨_, hd, _⟩ := natToStrGo_spec (n + 1) n (by omega)
  exact digit_ne_dot (hd x hx)

lemma splitDotsAux_nodot : ∀ (xs acc : List Char), (∀ c ∈ xs, ¬ c = '.') →
    splitDotsAux xs acc = [String.mk (acc.reverse ++ xs)] := by
  intro xs
  induction xs with
  | nil => intro acc _; simp [splitDotsAux]
  | cons c cs ih =>
    intro acc h
    unfold splitDotsAux
    rw [if_neg (h c (by simp)), ih (c :: acc) (fun x hx => h x (by simp [hx]))]
    simp

lemma splitDotsAux_dot : ∀ (xs rest acc : List Char), (∀ c ∈ xs, ¬ c = '.') →
    splitDotsAux (xs ++ '.' :: rest) acc =
      String.mk (acc.reverse ++ xs) :: splitDotsAux rest [] := by
  intro xs
  induction xs with
  | nil =>
    intro rest acc _
    simp [splitDotsAux]
  | cons c cs ih =>
    intro rest acc h
    rw [List.cons_append, splitDotsAux]
    rw [if_neg (h c (by simp)), ih rest (c :: acc) (fun x hx => h x (by simp [hx]))]
    simp

lemma splitDots_three (a b c : String) (ha : ∀ x ∈ a.data, ¬ x = '.')
    (hb : ∀ x ∈ b.data, ¬ x = '.') (hc : ∀ x ∈ c.data, ¬ x = '.') :
    splitDots (a ++ "." ++ b ++ "." ++ c) = [a, b, c] := by
  unfold splitDots
  have hd : (a ++ "." ++ b ++ "." ++ c).data =
      a.data ++ '.' :: (b.data ++ '.' :: c.data) := by
    simp [String.data_append, show ("." : String).data = ['.'] from rfl]
  rw [hd, splitDotsAux_dot a.data _ [] ha, splitDotsAux_dot b.data _ [] hb,
    splitDotsAux_nodot c.data [] hc]
  simp [mk_data]

lemma parse_version_versionStr (t : Nat × Nat × Nat) :
    parse_version (versionStr t) = some t := by
  obtain ⟨a, b, c⟩ := t
  unfold parse_version versionStr
  rw [splitDots_three _ _ _ (natToStr_nodot a) (natToStr_nodot b) (natToStr_nodot c)]
  simp only [mapO, toNatD_natToStr]
  rfl

/-! ### Order facts on triples -/

lemma tripleMax_not_lt_left (x y : Nat × Nat × Nat) : tripleLt (tripleMax x y) x = false := by
  rcases x with ⟨a, b, c⟩
  rcases y with ⟨d, e, f⟩
  simp only [tripleMax]
  split_ifs with h <;>
    simp only [tripleLt, decide_eq_true_eq, decide_eq_false_iff_not] at h ⊢ <;> omega

lemma tripleLt_incPatch (m : Nat × Nat × Nat) : tripleLt m (incPatch m) = true := by
  rcases m with ⟨a, b, c⟩
  simp [tripleLt, incPatch]

/-- The bumped version string never equals the version it was bumped from. -/
lemma bump_ne (lv : String) (lt rt : Nat × Nat × Nat)
    (h : parse_version lv = some lt) :
    versionStr (incPatch (tripleMax lt rt)) ≠ lv := by
  intro he
  have h2 : parse_version (versionStr (incPatch (tripleMax lt rt))) = some lt := by
    rw [he, h]
  rw [parse_version_versionStr] at h2
  have h3 : incPatch (tripleMax lt rt) = lt := by
    exact Option.some.inj h2
  have h4 := tripleMax_not_lt_left lt rt
  have h5 := tripleLt_incPatch (tripleMax lt rt)
  rw [h3] at h5
  rw [h5] at h4
  exact Bool.noConfusion h4

/-- `bump_patch` always succeeds and always differs from its input when both
versions parse. -/
lemma bump_patch_eq (lv : String) (rv : Option String) (lt rt : Nat × Nat × Nat)
    (hl : parse_version lv = some lt) (hr : remoteTupleOf rv = some rt) :
    bump_patch lv rv = some (versionStr (incPatch (tripleMax lt rt))) ∧
    versionStr (incPatch (tripleMax lt rt)) ≠ lv := by
  refine ⟨?_, bump_ne lv lt rt hl⟩
  unfold bump_patch
  rw [hl, hr]
  rfl

/-! ### Pin Policy Engine and the manifest pass -/

/-- `MOD_PACK_NAMES` (line 37). -/
def MOD_PACK_NAMES : List String :=
  ["zz-qol-lite", "zz-qol-plus", "zz-qol-max", "zz-qol-editor"]

/-- Result of one iteration of the dependency loop of `process_file`:
the emitted entry, whether `fetch_latest_version` was called, and the
iteration's contribution to `deps_changed` / `deps_latest_mismatch`. -/
structure DepResult where
  out : String
  queried : Bool
  changedDep : Bool
  latestMismatch : Bool
deriving DecidableEq

/-- Python `".".join(parts)`. -/
def joinDots : List String → String
  | [] => ""
  | [s] => s
  | s :: rest => s ++ "." ++ joinDots rest

/-- `gte_version = ".".join(latest_parts[:2]) if len(latest_parts) >= 2 else
latest` (line 187). -/
def gteOf (latest : String) : String :=
  if (splitDots latest).length ≥ 2 then joinDots ((splitDots latest).take 2) else latest

/-- The rewrite step (lines 185-195).  NOTE: in the source, line 193
(`new_op = "==" if mode == "eq" else ">="`) is dedented out of the `else:`
branch opened on line 192, which is an `IndentationError`: the module cannot
be loaded as written.  The step is embedded with the indentation the
surrounding code and the script's docstring clearly intend (the assignment as
the body of the `else:`). -/
def rewriteDep (mode : String) (force upgrade : Bool) (flag depName : String)
    (op ver : Option String) (latest : String) : String :=
  let gteVersion :=
    if upgrade ∧ (op = some ">=" ∨ op = some "=") ∧ pyTruthy ver ∧
        (splitDots (ver.getD "")).length ≥ 3 then latest
    else gteOf latest
  let newOp :=
    if pyTruthy op ∧ ¬ force then op.getD "" else if mode = "eq" then "==" else ">="
  let newVer := if newOp = ">=" then gteVersion else latest
  build_dep flag depName (some newOp) (some newVer)

/-- One iteration of the dependency loop of `process_file` (lines 151-200). -/
def processDep (fetch : String → Option String) (selfName mode : String)
    (force upgrade : Bool) (dep : String) : DepResult :=
  match parse_dep dep with
  | none => ⟨dep, false, false, false⟩
  | some (flag, depName, op, ver) =>
    if depName = "base" ∨ depName ∈ MOD_PACK_NAMES ∨ depName = selfName then
      ⟨dep, false, false, false⟩
    else if pyTruthy op ∧ ¬ (force ∨ upgrade) then
      ⟨dep, false, false, false⟩
    else if pyTruthy op ∧ upgrade ∧
        ¬ (op = some ">=" ∨ op = some "==" ∨ op = some "=") then
      ⟨dep, false, false, false⟩
    else
      match fetch depName with
      | none => ⟨dep, true, false, false⟩
      | some latest =>
        if latest = "" then ⟨dep, true, false, false⟩
        else
          let updated := rewriteDep mode force upgrade flag depName op ver latest
          ⟨updated, true, updated ≠ dep, pyTruthy ver ∧ latest ≠ ver.getD ""⟩

/-- The whole dependency loop: `new_deps` entries plus the per-entry flags. -/
def processDeps (fetch : String → Option String) (selfName mode : String)
    (force upgrade : Bool) (deps : List String) : List DepResult :=
  deps.map (processDep fetch selfName mode force upgrade)

/-- The fields of an `info.json` manifest that `process_file` reads:
`factorio_version` (already folded into the `fetch` oracle), `name`
(`info.get("name", "")`), the raw `version` string (`info.get("version", "")`)
and the dependency list. -/
structure Manifest where
  name : String
  version : String
  dependencies : List String
deriving DecidableEq

/-- Result of `process_file`: the `new_deps` list, the final `version` field
of the manifest, and the returned `changed` flag. -/
structure FileResult where
  newDeps : List String
  version : String
  changed : Bool
deriving DecidableEq

/-- Python `str.strip()` on the whitespace set. -/
def pyStrip (s : String) : String :=
  String.mk (((s.data.dropWhile isSpc).reverse.dropWhile isSpc).reverse)

/-- `current_version = info.get("version", "").strip()` (line 143). -/
def currentVersionOf (info : Manifest) : String := pyStrip info.version

def depResultsOf (fetch : String → Option String) (mode : String)
    (force upgrade : Bool) (info : Manifest) : List DepResult :=
  processDeps fetch info.name mode force upgrade info.dependencies

def newDepsOf (fetch : String → Option String) (mode : String)
    (force upgrade : Bool) (info : Manifest) : List String :=
  (depResultsOf fetch mode force upgrade info).map (·.out)

def depsChangedOf (fetch : String → Option String) (mode : String)
    (force upgrade : Bool) (info : Manifest) : Bool :=
  (depResultsOf fetch mode force upgrade info).any (·.changedDep)

def depsLatestMismatchOf (fetch : String → Option String) (mode : String)
    (force upgrade : Bool) (info : Manifest) : Bool :=
  (depResultsOf fetch mode force upgrade info).any (·.latestMismatch)

/-- `remote_latest = fetch_latest_version(name, factorio_version) if name else
None` (line 202). -/
def remoteLatestOf (fetch : String → Option String) (info : Manifest) : Option String :=
  if info.name ≠ "" then fetch info.name else none

/-- `remote_mismatch = bool(remote_latest and current_version and
remote_latest != current_version)` (line 205). -/
def remoteMismatchOf (fetch : String → Option String) (info : Manifest) : Bool :=
  pyTruthy (remoteLatestOf fetch info) &&
    decide (currentVersionOf info ≠ "") &&
    decide ((remoteLatestOf fetch info).getD "" ≠ currentVersionOf info)

/-- `bump_reason = bump or deps_changed or deps_latest_mismatch or
remote_mismatch` (line 207). -/
def bumpReasonOf (fetch : String → Option String) (mode : String)
    (force upgrade bump : Bool) (info : Manifest) : Bool :=
  bump || depsChangedOf fetch mode force upgrade info ||
    depsLatestMismatchOf fetch mode force upgrade info || remoteMismatchOf fetch info

/-- `process_file` (lines 137-220), with the catalog client specialized to
the manifest's `factorio_version` and abstracted as the `fetch` oracle
(`none` models both `CatalogUnavailable` and "no releases").  `none` as the
overall result models the uncaught `ValueError` of `bump_patch` on a
non-numeric version; the `write` flag only controls persistence, which is
outside the embedding. -/
def processFile (fetch : String → Option String) (mode : String)
    (force upgrade bump : Bool) (info : Manifest) : Option FileResult :=
  if bumpReasonOf fetch mode force upgrade bump info &&
      decide (currentVersionOf info ≠ "") then
    match bump_patch (currentVersionOf info) (remoteLatestOf fetch info) with
    | none => none
    | some newVersion =>
      if newVersion ≠ currentVersionOf info then
        some ⟨newDepsOf fetch mode force upgrade info, newVersion, true⟩
      else
        some ⟨newDepsOf fetch mode force upgrade info, info.version,
          depsChangedOf fetch mode force upgrade info⟩
  else
    some ⟨newDepsOf fetch mode force upgrade info, info.version,
      depsChangedOf fetch mode force upgrade info⟩

example :
    processDep (fun _ => some "3.4.1") "demo" "gte" false false "foo" =
      ⟨"foo >= 3.4", true, true, false⟩ := by decide
example :
    processDep (fun _ => some "3.4.1") "demo" "eq" false false "foo" =
      ⟨"foo == 3.4.1", true, true, false⟩ := by decide
example :
    processDep (fun _ => some "3.4.1") "demo" "gte" false false "bar >= 1.0.0" =
      ⟨"bar >= 1.0.0", false, false, false⟩ := by decide
example :
    processDep (fun _ => some "2.0.60") "demo" "gte" false true "bar >= 1.0" =
      ⟨"bar >= 2.0", true, true, true⟩ := by decide
example :
    processDep (fun _ => some "2.0.60") "demo" "gte" false true "bar >= 1.0.7" =
      ⟨"bar >= 2.0.60", true, true, true⟩ := by decide

/-! ### Claim C5 (existing constraints are respected) -/

/-- C5: a dependency with an existing (truthy) constraint is emitted
unchanged, with no catalog query and no contribution to the change flags,
when neither `force` nor `upgrade` is set; and when `upgrade` is set without
`force`, the same holds whenever its operator lies outside `{>=, ==, =}`. -/
theorem claim_C5_respect_existing (fetch : String → Option String)
    (selfName mode : String) (force upgrade : Bool) (dep flag depName : String)
    (op ver : Option String)
    (hp : parse_dep dep = some (flag, depName, op, ver))
    (hop : pyTruthy op = true)
    (hcase : (force = false ∧ upgrade = false) ∨
      (upgrade = true ∧ force = false ∧
        ¬ (op = some ">=" ∨ op = some "==" ∨ op = some "="))) :
    processDep fetch selfName mode force upgrade dep = ⟨dep, false, false, false⟩ := by
  unfold processDep
  rw [hp]
  by_cases hres : depName = "base" ∨ depName ∈ MOD_PACK_NAMES ∨ depName = selfName
  · simp [hres]
  · rcases hcase with ⟨rfl, rfl⟩ | ⟨rfl, rfl, hneq⟩
    · simp [hres, hop]
    · simp [hres, hop, hneq]

theorem claim_C5_witness :
    parse_dep "foo ~> 1.2.3" = some ("", "foo", some "~>", some "1.2.3") ∧
    pyTruthy (some "~>") = true ∧
    processDep (fun _ => some "9.9.9") "demo" "gte" false true "foo ~> 1.2.3" =
      ⟨"foo ~> 1.2.3", false, false, false⟩ := by
  refine ⟨by decide, by decide, ?_⟩
  exact claim_C5_respect_existing (fun _ => some "9.9.9") "demo" "gte" false true
    "foo ~> 1.2.3" "" "foo" (some "~>") (some "1.2.3") (by decide) (by decide)
    (Or.inr ⟨rfl, rfl, by decide⟩)

/-! ### Claim C6 (reserved names never mutate) -/

/-- C6: a dependency whose parsed name is the manifest's own name, `"base"`,
or one of the configured local-pack names is emitted byte-for-byte unchanged,
with no catalog query, at its original position — for every oracle and every
`mode`/`force`/`upgrade` combination (and the `bump` flag never reaches the
dependency loop at all: `processDeps` does not take it). -/
theorem claim_C6_reserved_unchanged (fetch : String → Option String)
    (selfName mode : String) (force upgrade : Bool) (deps : List String)
    (i : Nat) (dep flag depName : String) (op ver : Option String)
    (hi : deps[i]? = some dep)
    (hp : parse_dep dep = some (flag, depName, op, ver))
    (hres : depName = "base" ∨ depName ∈ MOD_PACK_NAMES ∨ depName = selfName) :
    (processDeps fetch selfName mode force upgrade deps)[i]? =
      some ⟨dep, false, false, false⟩ := by
  have hd : processDep fetch selfName mode force upgrade dep =
      ⟨dep, false, false, false⟩ := by
    unfold processDep
    rw [hp]
    simp [hres]
  unfold processDeps
  rw [List.getElem?_map, hi]
  simp [hd]

theorem claim_C6_witness :
    (["base >= 2.0"] : List String)[0]? = some "base >= 2.0" ∧
    parse_dep "base >= 2.0" = some ("", "base", some ">=", some "2.0") ∧
    (processDeps (fun _ => some "9.9.9") "demo" "eq" true true ["base >= 2.0"])[0]? =
      some ⟨"base >= 2.0", false, false, false⟩ := by
  refine ⟨by decide, by decide, ?_⟩
  exact claim_C6_reserved_unchanged (fun _ => some "9.9.9") "demo" "eq" true true
    ["base >= 2.0"] 0 "base >= 2.0" "" "base" (some ">=") (some "2.0")
    (by decide) (by decide) (Or.inl rfl)

/-! ### Claim C7 (failed or empty catalog lookups are recoverable) -/

/-- C7: when the catalog lookup for a dependency's name yields nothing
(`none` models a failed request as well as "no releases"), that entry is
emitted unchanged and contributes nothing to the change flags, while the
pass stays total and processes every other dependency: the output list always
has the same length as the input. -/
theorem claim_C7_lookup_failure_recoverable (fetch : String → Option String)
    (selfName mode : String) (force upgrade : Bool) (deps : List String)
    (i : Nat) (dep flag depName : String) (op ver : Option String)
    (hi : deps[i]? = some dep)
    (hp : parse_dep dep = some (flag, depName, op, ver))
    (hf : fetch depName = none) :
    ((processDeps fetch selfName mode force upgrade deps)[i]?).map
        (fun r => (r.out, r.changedDep, r.latestMismatch)) = some (dep, false, false) ∧
    (processDeps fetch selfName mode force upgrade deps).length = deps.length := by
  constructor
  · unfold processDeps
    rw [List.getElem?_map, hi]
    have key : ∃ q, processDep fetch selfName mode force upgrade dep =
        ⟨dep, q, false, false⟩ := by
      unfold processDep
      rw [hp]
      by_cases h1 : depName = "base" ∨ depName ∈ MOD_PACK_NAMES ∨ depName = selfName
      · exact ⟨false, by simp [h1]⟩
      · by_cases h2 : pyTruthy op = true ∧ ¬ (force = true ∨ upgrade = true)
        · exact ⟨false, by simp [h1, h2.1, h2.2]⟩
        · by_cases h3 : pyTruthy op = true ∧ upgrade = true ∧
              ¬ (op = some ">=" ∨ op = some "==" ∨ op = some "=")
          · refine ⟨false, ?_⟩
            simp only [h1, if_false, if_neg h2]
            simp [h3.1, h3.2.1, h3.2.2]
          · refine ⟨true, ?_⟩
            simp only [h1, if_false, if_neg h2, if_neg h3]
            simp [hf]
    obtain ⟨q, hq⟩ := key
    simp [hq]
  · unfold processDeps
    simp

theorem claim_C7_witness :
    (["foo"] : List String)[0]? = some "foo" ∧
    parse_dep "foo" = some ("", "foo", none, none) ∧
    ((processDeps (fun _ => none) "demo" "gte" false false ["foo"])[0]?).map
        (fun r => (r.out, r.changedDep, r.latestMismatch)) = some ("foo", false, false) ∧
    (processDeps (fun _ => none) "demo" "gte" false false ["foo"]).length = 1 := by
  have h := claim_C7_lookup_failure_recoverable (fun _ => none) "demo" "gte" false false
    ["foo"] 0 "foo" "" "foo" none none (by decide) (by decide) rfl
  exact ⟨by decide, by decide, h.1, h.2⟩

/-! ### Claim C8 (a no-op pass reports no change) -/

/-- C8: when the catalog yields nothing for every name and the force-bump
flag is unset, the pass over ANY manifest — in particular the manifest
produced by a previous pass — emits every dependency unchanged and returns
`changed = false`. -/
theorem claim_C8_noop_idempotent (fetch : String → Option String) (mode : String)
    (force upgrade : Bool) (info : Manifest)
    (hf : ∀ n, fetch n = none) :
    processFile fetch mode force upgrade false info =
      some ⟨info.dependencies, info.version, false⟩ := by
  have hdep : ∀ dep, ∃ q, processDep fetch info.name mode force upgrade dep =
      ⟨dep, q, false, false⟩ := by
    intro dep
    unfold processDep
    cases hp : parse_dep dep with
    | none => exact ⟨false, rfl⟩
    | some t =>
      obtain ⟨flag, depName, op, ver⟩ := t
      by_cases h1 : depName = "base" ∨ depName ∈ MOD_PACK_NAMES ∨ depName = info.name
      · exact ⟨false, by simp [h1]⟩
      · by_cases h2 : pyTruthy op = true ∧ ¬ (force = true ∨ upgrade = true)
        · exact ⟨false, by simp [h1, h2.1, h2.2]⟩
        · by_cases h3 : pyTruthy op = true ∧ upgrade = true ∧
              ¬ (op = some ">=" ∨ op = some "==" ∨ op = some "=")
          · refine ⟨false, ?_⟩
            simp only [h1, if_false, if_neg h2]
            simp [h3.1, h3.2.1, h3.2.2]
          · refine ⟨true, ?_⟩
            simp only [h1, if_false, if_neg h2, if_neg h3]
            simp [hf depName]
  have hlist : ∀ deps : List String,
      (deps.map (processDep fetch info.name mode force upgrade)).map (·.out) = deps ∧
      (deps.map (processDep fetch info.name mode force upgrade)).any (·.changedDep) = false ∧
      (deps.map (processDep fetch info.name mode force upgrade)).any (·.latestMismatch) = false := by
    intro deps
    induction deps with
    | nil => exact ⟨rfl, rfl, rfl⟩
    | cons d rest ih =>
      obtain ⟨q, hq⟩ := hdep d
      refine ⟨?_, ?_, ?_⟩ <;> simp [hq, ih.1, ih.2.1, ih.2.2]
  have houts := hlist info.dependencies
  have hrm : remoteLatestOf fetch info = none := by
    unfold remoteLatestOf
    by_cases h : info.name ≠ "" <;> simp [h, hf]
  have hch : depsChangedOf fetch mode force upgrade info = false := by
    unfold depsChangedOf depResultsOf processDeps
    exact houts.2.1
  have hmm : depsLatestMismatchOf fetch mode force upgrade info = false := by
    unfold depsLatestMismatchOf depResultsOf processDeps
    exact houts.2.2
  have hrmm : remoteMismatchOf fetch info = false := by
    unfold remoteMismatchOf
    rw [hrm]
    rfl
  have hnew : newDepsOf fetch mode force upgrade info = info.dependencies := by
    unfold newDepsOf depResultsOf processDeps
    exact houts.1
  have hbr : bumpReasonOf fetch mode force upgrade false info = false := by
    unfold bumpReasonOf
    rw [hch, hmm, hrmm]
    rfl
  unfold processFile
  rw [hbr, hnew, hch]
  simp

theorem claim_C8_witness :
    processFile (fun _ => none) "gte" false false false
        ⟨"demo", "1.0.0", ["foo", "bar >= 1.0.0", "base"]⟩ =
      some ⟨["foo", "bar >= 1.0.0", "base"], "1.0.0", false⟩ :=
  claim_C8_noop_idempotent (fun _ => none) "gte" false false
    ⟨"demo", "1.0.0", ["foo", "bar >= 1.0.0", "base"]⟩ (fun _ => rfl)

/-! ### Claim C4 (Revision Bump Policy) -/

/-- C4: after the dependency loop, the bump triggers are the force-bump flag,
`deps_changed`, `deps_latest_mismatch` and `remote_mismatch` (folded into
`bumpReasonOf`).  If any trigger holds and the stripped declared version
parses (in particular it is non-empty), the resulting version field is
`max(declaredVersion, remoteLatestVersionOrZero)` with the patch component
incremented by one; this always differs from the current declared version, so
the pass reports `changed = true` exactly as the claim's "marked changed iff
it differs" demands.  With no trigger — and likewise when the declared
version is empty or missing — no bump is attempted and the version field is
left unchanged. -/
theorem claim_C4_bump_policy (fetch : String → Option String) (mode : String)
    (force upgrade bump : Bool) (info : Manifest) :
    (currentVersionOf info = "" →
      processFile fetch mode force upgrade bump info =
        some ⟨newDepsOf fetch mode force upgrade info, info.version,
          depsChangedOf fetch mode force upgrade info⟩) ∧
    (∀ lt rt, parse_version (currentVersionOf info) = some lt →
      remoteTupleOf (remoteLatestOf fetch info) = some rt →
      (bumpReasonOf fetch mode force upgrade bump info = true →
        processFile fetch mode force upgrade bump info =
          some ⟨newDepsOf fetch mode force upgrade info,
            versionStr (incPatch (tripleMax lt rt)), true⟩ ∧
        versionStr (incPatch (tripleMax lt rt)) ≠ currentVersionOf info) ∧
      (bumpReasonOf fetch mode force upgrade bump info = false →
        processFile fetch mode force upgrade bump info =
          some ⟨newDepsOf fetch mode force upgrade info, info.version,
            depsChangedOf fetch mode force upgrade info⟩)) := by
  constructor
  · intro h
    unfold processFile
    rw [h]
    simp
  · intro lt rt hl hr
    have hcv : currentVersionOf info ≠ "" := by
      intro e
      rw [e, (rfl : parse_version "" = none)] at hl
      exact Option.noConfusion hl
    obtain ⟨hbp, hne⟩ := bump_patch_eq (currentVersionOf info)
      (remoteLatestOf fetch info) lt rt hl hr
    constructor
    · intro htr
      refine ⟨?_, hne⟩
      unfold processFile
      rw [htr, decide_eq_true hcv, hbp]
      simp [hne]
    · intro htr
      unfold processFile
      rw [htr]
      simp

theorem claim_C4_witness :
    parse_version (currentVersionOf ⟨"demo", "1.2.3", ["foo"]⟩) = some (1, 2, 3) ∧
    remoteTupleOf (remoteLatestOf
      (fun n => if n = "demo" then some "1.2.5" else some "3.4.1")
      ⟨"demo", "1.2.3", ["foo"]⟩) = some (1, 2, 5) ∧
    bumpReasonOf (fun n => if n = "demo" then some "1.2.5" else some "3.4.1")
      "gte" false false false ⟨"demo", "1.2.3", ["foo"]⟩ = true ∧
    processFile (fun n => if n = "demo" then some "1.2.5" else some "3.4.1")
      "gte" false false false ⟨"demo", "1.2.3", ["foo"]⟩ =
        some ⟨["foo >= 3.4"], "1.2.6", true⟩ ∧
    ("1.2.6" : String) ≠ "1.2.3" := by
  have h := (claim_C4_bump_policy
    (fun n => if n = "demo" then some "1.2.5" else some "3.4.1")
    "gte" false false false ⟨"demo", "1.2.3", ["foo"]⟩).2 (1, 2, 3) (1, 2, 5)
    (by decide) (by decide)
  have h2 := h.1 (by decide)
  exact ⟨by decide, by decide, by decide, h2.1.trans (by decide), by decide⟩

/-! ### Candidate selection (`fetch_latest_version`, lines 79-107)

The loop body builds `candidates = [(priority, parse_ver(version), version)]`
and then sorts by the key `(priority, ver_tuple)` descending (twice, then once
more inside `sorted(...)` — the redundant double sort of the source) before a
linear scan picks the best entry.  Python's `list.sort(key=..., reverse=True)`
is a stable descending sort; it is embedded as a stable insertion sort on the
same key, which computes the same list.  The scan is embedded as `bestStep`. -/

structure Candidate where
  tag : Option String
  verT : List Nat
  raw : String
deriving DecidableEq

/-- Priority assignment (lines 87-91): priority 1 iff `want_factorio` is
truthy, the release's `factorio_version` is truthy, and the two differ. -/
def priority (wantTag : Option String) (c : Candidate) : Nat :=
  if pyTruthy wantTag = true ∧ pyTruthy c.tag = true ∧ c.tag ≠ wantTag then 1 else 0

def candTriples (wantTag : Option String) (cs : List Candidate) :
    List (Nat × List Nat × String) :=
  cs.map fun c => (priority wantTag c, c.verT, c.raw)

/-- Python `<` on the sort key `(priority, ver_tuple)`. -/
def keyLt (x y : Nat × List Nat × String) : Bool :=
  decide (x.1 < y.1) || (decide (x.1 = y.1) && tupLt x.2.1 y.2.1)

/-- Stable insertion into a descendingly sorted list: an element passes over
strictly larger keys and lands before any equal key already present, which is
exactly the stability of Python's `sort(..., reverse=True)` when the earlier
element is inserted later (`foldr`). -/
def insDesc (x : Nat × List Nat × String) :
    List (Nat × List Nat × String) → List (Nat × List Nat × String)
  | [] => [x]
  | y :: ys => if keyLt x y then y :: insDesc x ys else x :: y :: ys

/-- `candidates.sort(key=lambda t: (t[0], t[1]), reverse=True)`. -/
def sortDesc (l : List (Nat × List Nat × String)) : List (Nat × List Nat × String) :=
  l.foldr insDesc []

/-- One iteration of the selection scan (lines 103-106). -/
def bestStep (acc : Option ((List Nat × String) × Nat)) (c : Nat × List Nat × String) :
    Option ((List Nat × String) × Nat) :=
  match acc with
  | none => some ((c.2.1, c.2.2), c.1)
  | some (b, bp) =>
    if c.1 < bp ∨ (c.1 = bp ∧ tupLt b.1 c.2.1 = true) then some ((c.2.1, c.2.2), c.1)
    else acc

/-- The pure selection of `fetch_latest_version` on an already-built candidate
list (lines 93-107): `None` on an empty list, else sort twice in place,
iterate over `sorted(candidates, ...)` with the scan, and return the raw
version string of the best entry. -/
def selectBest (wantTag : Option String) (cs : List Candidate) : Option String :=
  if cs = [] then none
  else
    match (sortDesc (sortDesc (sortDesc (candTriples wantTag cs)))).foldl bestStep none with
    | some (b, _) => some b.2
    | none => none

example :
    selectBest (some "A") [⟨some "A", [1, 2, 0], "1.2.0"⟩, ⟨some "B", [9, 9, 9], "9.9.9"⟩] =
      some "1.2.0" := by decide
example :
    selectBest none [⟨some "A", [1, 2, 0], "1.2.0"⟩, ⟨some "B", [9, 9, 9], "9.9.9"⟩] =
      some "9.9.9" := by decide

/-! ### Order facts on Python tuple comparison -/

lemma tupLt_irrefl : ∀ a : List Nat, tupLt a a = false := by
  intro a
  induction a with
  | nil => rfl
  | cons x xs ih => simp [tupLt, ih]

lemma tupLt_trans : ∀ a b c : List Nat,
    tupLt a b = true → tupLt b c = true → tupLt a c = true := by
  intro a
  induction a with
  | nil =>
    intro b c hab hbc
    cases b with
    | nil => exact absurd hab (by simp [tupLt])
    | cons x xs =>
      cases c with
      | nil => exact absurd hbc (by simp [tupLt])
      | cons y ys => rfl
  | cons a as ih =>
    intro b c hab hbc
    cases b with
    | nil => exact absurd hab (by simp [tupLt])
    | cons x xs =>
      cases c with
      | nil => exact absurd hbc (by simp [tupLt])
      | cons y ys =>
        simp only [tupLt] at hab hbc ⊢
        split_ifs at hab hbc ⊢ <;>
          first
          | rfl
          | omega
          | (exact ih xs ys hab hbc)

lemma tupLt_cases : ∀ a b : List Nat, tupLt a b = true ∨ a = b ∨ tupLt b a = true := by
  intro a
  induction a with
  | nil =>
    intro b
    cases b with
    | nil => exact Or.inr (Or.inl rfl)
    | cons y ys => exact Or.inl rfl
  | cons x xs ih =>
    intro b
    cases b with
    | nil => exact Or.inr (Or.inr rfl)
    | cons y ys =>
      rcases Nat.lt_trichotomy x y with h | h | h
      · exact Or.inl (by simp [tupLt, h])
      · subst h
        rcases ih ys with h2 | h2 | h2
        · exact Or.inl (by simp [tupLt, h2])
        · exact Or.inr (Or.inl (by rw [h2]))
        · exact Or.inr (Or.inr (by simp [tupLt, h2]))
      · exact Or.inr (Or.inr (by simp [tupLt, h]))

/-! ### The selection scan is a minimum-priority / maximum-version choice -/

lemma foldl_bestStep_some :
    ∀ (l : List (Nat × List Nat × String)) (t0 : List Nat × String) (p0 : Nat),
    ∃ t p, l.foldl bestStep (some (t0, p0)) = some (t, p) ∧
      ((p, t.1, t.2) ∈ l ∨ (t = t0 ∧ p = p0)) ∧ p ≤ p0 ∧
      (∀ x ∈ l, p ≤ x.1 ∧ (x.1 = p → tupLt t.1 x.2.1 = false)) ∧
      (p = p0 → tupLt t.1 t0.1 = false) := by
  intro l
  induction l with
  | nil =>
    intro t0 p0
    exact ⟨t0, p0, rfl, Or.inr ⟨rfl, rfl⟩, Nat.le_refl _, by simp,
      fun _ => tupLt_irrefl _⟩
  | cons c cs ih =>
    intro t0 p0
    by_cases hcond : c.1 < p0 ∨ (c.1 = p0 ∧ tupLt t0.1 c.2.1 = true)
    · have hstep : bestStep (some (t0, p0)) c = some ((c.2.1, c.2.2), c.1) := by
        show (if c.1 < p0 ∨ (c.1 = p0 ∧ tupLt t0.1 c.2.1 = true) then
            some ((c.2.1, c.2.2), c.1) else some (t0, p0)) = some ((c.2.1, c.2.2), c.1)
        rw [if_pos hcond]
      obtain ⟨t, p, heq, hmem, hle, hall, hlast⟩ := ih (c.2.1, c.2.2) c.1
      have hc1 : c.1 ≤ p0 := by rcases hcond with h | ⟨h, _⟩ <;> omega
      refine ⟨t, p, ?_, ?_, by omega, ?_, ?_⟩
      · rw [List.foldl_cons, hstep]
        exact heq
      · rcases hmem with hm | ⟨rfl, rfl⟩
        · exact Or.inl (List.mem_cons_of_mem _ hm)
        · exact Or.inl (List.mem_cons_self _ _)
      · intro x hx
        rcases List.mem_cons.mp hx with rfl | hx'
        · exact ⟨hle, fun h => hlast h.symm⟩
        · exact hall x hx'
      · intro hpp0
        rcases hcond with h | ⟨hceq, htup⟩
        · omega
        · have h1 : tupLt t.1 c.2.1 = false := hlast (by omega)
          cases h2 : tupLt t.1 t0.1 with
          | false => rfl
          | true =>
            have h3 := tupLt_trans _ _ _ h2 htup
            rw [h3] at h1
            exact Bool.noConfusion h1
    · have hstep : bestStep (some (t0, p0)) c = some (t0, p0) := by
        show (if c.1 < p0 ∨ (c.1 = p0 ∧ tupLt t0.1 c.2.1 = true) then
            some ((c.2.1, c.2.2), c.1) else some (t0, p0)) = some (t0, p0)
        rw [if_neg hcond]
      obtain ⟨t, p, heq, hmem, hle, hall, hlast⟩ := ih t0 p0
      push_neg at hcond
      obtain ⟨hnlt, hntup⟩ := hcond
      refine ⟨t, p, ?_, ?_, hle, ?_, hlast⟩
      · rw [List.foldl_cons, hstep]
        exact heq
      · rcases hmem with hm | he
        · exact Or.inl (List.mem_cons_of_mem _ hm)
        · exact Or.inr he
      · intro x hx
        rcases List.mem_cons.mp hx with rfl | hx'
        · refine ⟨by omega, ?_⟩
          intro hxp
          have hpp0 : p = p0 := by omega
          have ht0 : tupLt t.1 t0.1 = false := hlast hpp0
          have ht0c : tupLt t0.1 x.2.1 = false := by
            cases h : tupLt t0.1 x.2.1 with
            | false => rfl
            | true => exact absurd h (hntup (by omega))
          cases hq : tupLt t.1 x.2.1 with
          | false => rfl
          | true =>
            rcases tupLt_cases t0.1 x.2.1 with h0 | h0 | h0
            · rw [h0] at ht0c
              exact Bool.noConfusion ht0c
            · rw [← h0] at hq
              rw [hq] at ht0
              exact Bool.noConfusion ht0
            · have h4 := tupLt_trans _ _ _ hq h0
              rw [h4] at ht0
              exact Bool.noConfusion ht0
        · exact hall x hx'

lemma foldl_bestStep_spec (l : List (Nat × List Nat × String)) (hne : l ≠ []) :
    ∃ t p, l.foldl bestStep none = some (t, p) ∧ (p, t.1, t.2) ∈ l ∧
      (∀ x ∈ l, p ≤ x.1 ∧ (x.1 = p → tupLt t.1 x.2.1 = false)) := by
  cases l with
  | nil => exact absurd rfl hne
  | cons c cs =>
    obtain ⟨t, p, heq, hmem, hle, hall, hlast⟩ := foldl_bestStep_some cs (c.2.1, c.2.2) c.1
    refine ⟨t, p, ?_, ?_, ?_⟩
    · rw [List.foldl_cons]
      exact heq
    · rcases hmem with hm | ⟨rfl, rfl⟩
      · exact List.mem_cons_of_mem _ hm
      · exact List.mem_cons_self _ _
    · intro x hx
      rcases List.mem_cons.mp hx with rfl | hx'
      · exact ⟨hle, fun h => hlast h.symm⟩
      · exact hall x hx'

/-! ### The sort is a permutation (its order is irrelevant to the scan) -/

lemma insDesc_perm (x : Nat × List Nat × String) :
    ∀ l, (insDesc x l).Perm (x :: l) := by
  intro l
  induction l with
  | nil => exact List.Perm.refl _
  | cons y ys ih =>
    unfold insDesc
    by_cases h : keyLt x y = true
    · rw [if_pos h]
      exact (ih.cons y).trans (List.Perm.swap x y ys)
    · rw [if_neg h]

lemma sortDesc_perm (l : List (Nat × List Nat × String)) : (sortDesc l).Perm l := by
  induction l with
  | nil => exact List.Perm.refl _
  | cons c cs ih =>
    have : sortDesc (c :: cs) = insDesc c (sortDesc cs) := rfl
    rw [this]
    exact (insDesc_perm c (sortDesc cs)).trans (ih.cons c)

/-! ### Claim C3 (two-tier candidate selection) -/

/-- C3: on every non-empty candidate list, the selection returns the raw
version of a candidate `c` such that: if any priority-0 candidate exists
(no truthy tag, tag equal to a truthy `wantTag`, or `wantTag` not truthy),
`c` has priority 0 and a maximal version tuple among priority-0 candidates;
and if every candidate has priority 1, `c` has a maximal version tuple among
all of them.  In particular, on `[(tag=A, v=1.2.0), (tag=B, v=9.9.9)]` with
`wantTag = A` the selection returns `"1.2.0"`. -/
theorem claim_C3_select_best (cs : List Candidate) (w : Option String)
    (hne : cs ≠ []) :
    (∃ c ∈ cs, selectBest w cs = some c.raw ∧
      ((∃ c0 ∈ cs, priority w c0 = 0) →
        priority w c = 0 ∧
        ∀ d ∈ cs, priority w d = 0 → tupLt c.verT d.verT = false) ∧
      ((∀ c0 ∈ cs, priority w c0 = 1) →
        ∀ d ∈ cs, tupLt c.verT d.verT = false)) ∧
    selectBest (some "A")
        [⟨some "A", [1, 2, 0], "1.2.0"⟩, ⟨some "B", [9, 9, 9], "9.9.9"⟩] =
      some "1.2.0" := by
  refine ⟨?_, by decide⟩
  have hperm : (sortDesc (sortDesc (sortDesc (candTriples w cs)))).Perm
      (candTriples w cs) :=
    (sortDesc_perm _).trans ((sortDesc_perm _).trans (sortDesc_perm _))
  have hSne : sortDesc (sortDesc (sortDesc (candTriples w cs))) ≠ [] := by
    intro h
    have hlen := hperm.length_eq
    rw [h] at hlen
    simp only [List.length_nil, candTriples, List.length_map] at hlen
    exact hne (List.length_eq_zero.mp hlen.symm)
  obtain ⟨t, p, heq, hmem, hall⟩ :=
    foldl_bestStep_spec (sortDesc (sortDesc (sortDesc (candTriples w cs)))) hSne
  have hmemL : (p, t.1, t.2) ∈ candTriples w cs := hperm.mem_iff.mp hmem
  obtain ⟨c, hc, hcx⟩ := List.mem_map.mp hmemL
  obtain ⟨hp, hv, hr⟩ : priority w c = p ∧ c.verT = t.1 ∧ c.raw = t.2 := by
    simpa [Prod.ext_iff] using hcx
  have hallD : ∀ d ∈ cs, p ≤ priority w d ∧
      (priority w d = p → tupLt t.1 d.verT = false) := by
    intro d hd
    exact hall _ (hperm.mem_iff.mpr (List.mem_map.mpr ⟨d, hd, rfl⟩))
  have hsel : selectBest w cs = some t.2 := by
    unfold selectBest
    rw [if_neg hne, heq]
  refine ⟨c, hc, ?_, ?_, ?_⟩
  · rw [hr]
    exact hsel
  · rintro ⟨c0, hc0, hp0⟩
    have h1 := (hallD c0 hc0).1
    have hp' : p = 0 := by omega
    refine ⟨by rw [hp, hp'], ?_⟩
    intro d hd hd0
    have h2 := (hallD d hd).2 (by rw [hd0, hp'])
    rw [hv]
    exact h2
  · intro hall1
    intro d hd
    have hp1 : p = 1 := by rw [← hp, hall1 c hc]
    have h2 := (hallD d hd).2 (by rw [hall1 d hd, hp1])
    rw [hv]
    exact h2

theorem claim_C3_witness :
    (([⟨some "A", [1, 2, 0], "1.2.0"⟩, ⟨some "B", [9, 9, 9], "9.9.9"⟩] :
      List Candidate) ≠ []) ∧
    selectBest (some "A")
        [⟨some "A", [1, 2, 0], "1.2.0"⟩, ⟨some "B", [9, 9, 9], "9.9.9"⟩] =
      some "1.2.0" :=
  ⟨by decide,
    (claim_C3_select_best
      [⟨some "A", [1, 2, 0], "1.2.0"⟩, ⟨some "B", [9, 9, 9], "9.9.9"⟩]
      (some "A") (by decide)).2⟩

end PinMod
